/-
Verification of the override-annotation auditor (scripts/overrider.py).

The Python source is shallowly embedded: the `ast` node kinds the two
visitors dispatch on become the inductive `Stmt`; Python exceptions
(AssertionError, IndexError, FileNotFoundError) become `Option` results
with `none` marking a raised exception; Python's unbounded `int` becomes
`Int`; Python list indexing and `list.insert` keep their negative-index
semantics in `pyGet` / `pyInsert`; the substring test `"x" in line`
becomes `strHasSub`.  Parsing (`ast.parse`) is an external collaborator
and is passed in as a function from file lines to an optional tree.
-/
import Mathlib

namespace Overrider

/-- Python `pat in s` substring test, prefix step. -/
def charsStartWith : List Char → List Char → Bool
  | [], _ => true
  | _ :: _, [] => false
  | p :: ps, c :: cs => p == c && charsStartWith ps cs

/-- Python `pat in s` substring test over character lists. -/
def charsHaveSub (pat : List Char) : List Char → Bool
  | [] => pat.isEmpty
  | c :: cs => charsStartWith pat (c :: cs) || charsHaveSub pat cs

/-- Python `pat in s` substring test on strings. -/
def strHasSub (s pat : String) : Bool :=
  charsHaveSub pat.toList s.toList

/-- Python truthiness of an `Optional[str]`: `None` and `""` are falsy. -/
def truthyS : Option String → Bool
  | none => false
  | some s => !(s == "")

/-- Python `lst[i]` read access: negative indices count from the end,
anything further out raises IndexError (here: `none`). -/
def pyGet {α : Type} (l : List α) (i : Int) : Option α :=
  if 0 ≤ i then l.get? i.toNat
  else if 0 ≤ (l.length : Int) + i then l.get? ((l.length : Int) + i).toNat
  else none

/-- Python `lst.insert(i, x)`: never raises; negative indices count from
the end and are clamped at 0, large indices are clamped at `len`. -/
def pyInsert {α : Type} (l : List α) (i : Int) (x : α) : List α :=
  let j : Nat :=
    if i < 0 then
      (if (l.length : Int) + i < 0 then 0 else ((l.length : Int) + i).toNat)
    else
      (if i ≤ (l.length : Int) then i.toNat else l.length)
  l.take j ++ x :: l.drop j

/-- Decorator expression, as the visitors case on it:
`ast.Name(id)`, `ast.Attribute(value, attr)`, or anything else. -/
inductive Deco where
  | nameId : String → Deco
  | attr : String → String → Deco
  | otherDeco : Deco
deriving DecidableEq

/-- `isinstance(d, ast.Name) and d.id == s`. -/
def decoIs (d : Deco) (s : String) : Bool :=
  match d with
  | .nameId i => i == s
  | _ => false

/-- The statement shapes the two `ast.NodeVisitor`s distinguish:
`ClassDef` (name, bases, body), `FunctionDef` / `AsyncFunctionDef`
(name, decorator list, lineno, body), and any other node, whose
children are walked by `generic_visit`.  A class's bases are decorator-
shaped expressions (`ast.Name` / `ast.Attribute` / other), reusing
`Deco`. -/
inductive Stmt where
  | classDef : String → List Deco → List Stmt → Stmt
  | functionDef : String → List Deco → Int → List Stmt → Stmt
  | asyncFunctionDef : String → List Deco → Int → List Stmt → Stmt
  | otherStmt : List Stmt → Stmt

/-- dataclass `AbstractMethod` (overrider.py lines 9-14). -/
structure AbstractMethod where
  name : String
  module : String
  class_name : String
  lineno : Int
deriving DecidableEq

/-- dataclass `OverrideMethod` (overrider.py lines 17-24).  `module` and
`class_name` are `Option String` because `visit_AsyncFunctionDef` of
`ImplementationFinder` stores them without the assertion that guards the
synchronous path, so Python `None` can end up in these fields. -/
structure OverrideMethod where
  name : String
  module : Option String
  class_name : Option String
  lineno : Int
  has_override : Bool
  source_file : String
deriving DecidableEq

/-- Body shared by `visit_FunctionDef` and `visit_AsyncFunctionDef` of
`AbstractMethodFinder` (lines 41-67; the two are textually identical):
one record is appended per decorator that is the bare name
`abstractmethod`, each append guarded by `assert self.current_module and
self.current_class`; a failed assertion is `none`. -/
def avFun (mod cls : Option String) (name : String) (decos : List Deco)
    (lineno : Int) : Option (List AbstractMethod) :=
  decos.foldlM
    (fun acc d =>
      if decoIs d "abstractmethod" then
        if truthyS mod && truthyS cls then
          some (acc ++ [⟨name, mod.getD "", cls.getD "", lineno⟩])
        else
          none
      else
        some acc)
    []

mutual

/-- Traversal of `AbstractMethodFinder` over one node: `visit_ClassDef`
(lines 35-39) pushes the class name and walks the body; the function
visitors do not call `generic_visit`, so function bodies are not
walked; any other node is walked by `generic_visit`. -/
def avStmt (mod cls : Option String) : Stmt → Option (List AbstractMethod)
  | .classDef name _ body => avBody mod (some name) body
  | .functionDef name decos lineno _ => avFun mod cls name decos lineno
  | .asyncFunctionDef name decos lineno _ => avFun mod cls name decos lineno
  | .otherStmt body => avBody mod cls body

/-- Traversal of `AbstractMethodFinder` over sibling nodes, appending
their results in order. -/
def avBody (mod cls : Option String) : List Stmt → Option (List AbstractMethod)
  | [] => some []
  | s :: rest => do
      let r1 ← avStmt mod cls s
      let r2 ← avBody mod cls rest
      some (r1 ++ r2)

end

/-- `{method.name for method in abstract_methods}` (line 74); list
membership stands for set membership. -/
def abstractNames (ams : List AbstractMethod) : List String :=
  ams.map (·.name)

/-- `{method.class_name for method in abstract_methods}` (line 75). -/
def abstractClasses (ams : List AbstractMethod) : List String :=
  ams.map (·.class_name)

/-- `base.id if isinstance(base, ast.Name) else base.attr` over bases
that are `ast.Name` or `ast.Attribute` (lines 86-90); the Python set
comprehension is modelled as the deduplicated list. -/
def extractBases (bases : List Deco) : List String :=
  (bases.filterMap (fun b =>
    match b with
    | .nameId i => some i
    | .attr _ a => some a
    | .otherDeco => none)).dedup

/-- `ImplementationFinder.visit_FunctionDef` (lines 99-120): only method
names in the abstract set are considered; a bare `abstractmethod` or
`staticmethod` decorator excludes the method; otherwise
`assert self.current_module and self.current_class` runs (failure is
`none`) and a record is appended with the computed `has_override`. -/
def ivSync (ams : List AbstractMethod) (file : String) (mod cls : Option String)
    (name : String) (decos : List Deco) (lineno : Int) :
    Option (List OverrideMethod) :=
  if (abstractNames ams).contains name then
    let has_override := decos.any (fun d => decoIs d "override")
    if decos.any (fun d => decoIs d "abstractmethod" || decoIs d "staticmethod") then
      some []
    else
      if truthyS mod && truthyS cls then
        some [⟨name, mod, cls, lineno, has_override, file⟩]
      else
        none
  else
    some []

/-- `ImplementationFinder.visit_AsyncFunctionDef` (lines 122-141): same
name filter, but only a bare `abstractmethod` decorator excludes
(`staticmethod` does not), and there is no assertion, so `module` and
`class_name` are stored as they are, possibly `None`. -/
def ivAsync (ams : List AbstractMethod) (file : String) (mod cls : Option String)
    (name : String) (decos : List Deco) (lineno : Int) :
    Option (List OverrideMethod) :=
  if (abstractNames ams).contains name then
    let has_override := decos.any (fun d => decoIs d "override")
    if decos.any (fun d => decoIs d "abstractmethod") then
      some []
    else
      some [⟨name, mod, cls, lineno, has_override, file⟩]
  else
    some []

mutual

/-- Traversal of `ImplementationFinder` over one node.
`visit_ClassDef` (lines 81-97) records the inheritance edge for the
class, then walks the body only when the class name is not in the
abstract-class set.  Besides the implementation records, the list of
`inheritance_map` updates is returned (the map is written but never
read by the source). -/
def ivStmt (ams : List AbstractMethod) (file : String) (mod cls : Option String) :
    Stmt → Option (List OverrideMethod × List (String × List String))
  | .classDef name bases body =>
      let entry := (name, extractBases bases)
      if (abstractClasses ams).contains name then
        some ([], [entry])
      else do
        let (rs, ms) ← ivBody ams file mod (some name) body
        some (rs, entry :: ms)
  | .functionDef name decos lineno _ => do
      let rs ← ivSync ams file mod cls name decos lineno
      some (rs, [])
  | .asyncFunctionDef name decos lineno _ => do
      let rs ← ivAsync ams file mod cls name decos lineno
      some (rs, [])
  | .otherStmt body => ivBody ams file mod cls body

/-- Traversal of `ImplementationFinder` over sibling nodes. -/
def ivBody (ams : List AbstractMethod) (file : String) (mod cls : Option String) :
    List Stmt → Option (List OverrideMethod × List (String × List String))
  | [] => some ([], [])
  | s :: rest => do
      let (r1, m1) ← ivStmt ams file mod cls s
      let (r2, m2) ← ivBody ams file mod cls rest
      some (r1 ++ r2, m1 ++ m2)

end

/-- `add_override_decorator`'s backward walk (lines 156-159):
`while "@" in target_line and "@property" not in target_line:
line_number -= 1; target_line = lines[line_number - 2]`.  A read out of
range is IndexError (`none`).  The walk decreases `line_number` and a
read below index `-len(lines)` raises, so `fuel` chosen at least
`line_number + len(lines) + 3` can never run out; fuel exhaustion is
also encoded as `none` but is unreachable for the fuel supplied by
`add_override_decorator`. -/
def walkBack (lines : List String) : Nat → Int → String → Option Int
  | 0, _, _ => none
  | Nat.succ fuel, ln, target =>
      if strHasSub target "@" && !strHasSub target "@property" then
        match pyGet lines (ln - 3) with
        | none => none
        | some t => walkBack lines fuel (ln - 1) t
      else
        some ln

/-- `add_override_decorator` (lines 144-165) on a file given as its list
of lines, returning the new lines together with the value of
`line_number` at the `lines.insert(line_number - 1, decorator_line)`
call (the 1-based line position at which the new line lands).  `none`
models an exception escaping the function; the file write is performed
by the caller. -/
def add_override_decorator (lines : List String) (line_number : Int) :
    Option (List String × Int) := do
  let method_line ← pyGet lines (line_number - 1)
  let indent := (method_line.toList.takeWhile (·.isWhitespace)).length
  let decorator_line := String.mk (List.replicate indent ' ' ++ "@override\n".toList)
  let target ← pyGet lines (line_number - 2)
  let ln ← walkBack lines (line_number.toNat + lines.length + 3) line_number target
  some (pyInsert lines (ln - 1) decorator_line, ln)

/-- A scanned source tree: file paths in `os.walk` discovery order, each
with its lines; only `.py` files reach the passes, so the walker and the
extension filter are the external collaborator producing this list. -/
abbrev FS : Type := List (String × List String)

/-- The external parser: file lines to an optional tree (`ast.parse`
raising is `none`). -/
abbrev Parser : Type := List String → Option (List Stmt)

/-- Report lines the claims talk about (pure formatting/header prints
are elided).  `errorProcessing p` is
`print(f"Error processing {p}: {e}")`; the last two are the apply-loop
prints of lines 246 and 248. -/
inductive Event where
  | errorProcessing : String → Event
  | foundAbstract : String → String → String → Int → Event
  | foundImpl : Option String → String → String → Int → Bool → Event
  | wouldAdd : Option String → String → Event
  | addedOverride : Option String → String → Event
  | errorAdding : Option String → String → Event
deriving DecidableEq

/-- First pass of `process_codebase` (lines 170-188): per file, parse
and run `AbstractMethodFinder` with `current_module` set to the path;
any exception is caught and logged, and that file contributes no
records. -/
def passAbstract (parse : Parser) : FS → List AbstractMethod × List Event
  | [] => ([], [])
  | (p, ls) :: rest =>
      let r := passAbstract parse rest
      match parse ls with
      | none => (r.1, .errorProcessing p :: r.2)
      | some tree =>
          match avBody (some p) none tree with
          | none => (r.1, .errorProcessing p :: r.2)
          | some ams => (ams ++ r.1, r.2)

/-- Second pass of `process_codebase` (lines 190-209): per file, parse
and run `ImplementationFinder` (built from the first pass's records)
with `current_module` and `current_file` set to the path; exceptions are
caught and logged the same way. -/
def passImpl (parse : Parser) (ams : List AbstractMethod) :
    FS → List OverrideMethod × List Event
  | [] => ([], [])
  | (p, ls) :: rest =>
      let r := passImpl parse ams rest
      match parse ls with
      | none => (r.1, .errorProcessing p :: r.2)
      | some tree =>
          match ivBody ams p (some p) none tree with
          | none => (r.1, .errorProcessing p :: r.2)
          | some pair => (pair.1 ++ r.1, r.2)

/-- `process_codebase` (lines 168-211): both passes over the same file
list, returning the accumulated records and the error lines printed. -/
def process_codebase (parse : Parser) (fs : FS) :
    List AbstractMethod × List OverrideMethod × List Event :=
  let r1 := passAbstract parse fs
  let r2 := passImpl parse r1.1 fs
  (r1.1, r2.1, r1.2 ++ r2.2)

/-- `open(file_path)` read: `none` is FileNotFoundError. -/
def fsRead (fs : FS) (p : String) : Option (List String) :=
  (fs.find? (fun e => e.1 == p)).map (·.2)

/-- The file write at lines 164-165: full replacement of the file's
lines. -/
def fsWrite (fs : FS) (p : String) (ls : List String) : FS :=
  fs.map (fun e => if e.1 == p then (p, ls) else e)

/-- Trace of one iteration of the apply loop: the file, the line number
passed to `add_override_decorator` (`impl.lineno + offset`), and, when
the call succeeded, the 1-based line position where the new line was
inserted. -/
structure EditTrace where
  file : String
  passed : Int
  landed : Option Int
deriving DecidableEq

/-- The apply loop of `main` (lines 239-248): per missing
implementation, read the per-file offset, call
`add_override_decorator(file, lineno + offset)`, and on success write
the file back and bump the offset; any exception is caught and printed,
and the loop continues with the next implementation.  The
`defaultdict(lambda: 0)` of offsets is modelled as the total function
`offs` (reads of absent keys yield 0, `offsets[f] += 1` is a pointwise
update). -/
def applyLoop (fs : FS) (offs : String → Int) :
    List OverrideMethod → FS × List Event × List EditTrace
  | [] => (fs, [], [])
  | impl :: rest =>
      let off := offs impl.source_file
      let ln := impl.lineno + off
      match fsRead fs impl.source_file with
      | none =>
          let r := applyLoop fs offs rest
          (r.1, .errorAdding impl.class_name impl.name :: r.2.1,
            ⟨impl.source_file, ln, none⟩ :: r.2.2)
      | some lines =>
          match add_override_decorator lines ln with
          | none =>
              let r := applyLoop fs offs rest
              (r.1, .errorAdding impl.class_name impl.name :: r.2.1,
                ⟨impl.source_file, ln, none⟩ :: r.2.2)
          | some pair =>
              let r :=
                applyLoop (fsWrite fs impl.source_file pair.1)
                  (fun f => if f = impl.source_file then offs f + 1 else offs f) rest
              (r.1, .addedOverride impl.class_name impl.name :: r.2.1,
                ⟨impl.source_file, ln, some pair.2⟩ :: r.2.2)

/-- `main` (lines 214-248): run both passes, report findings, collect
the implementations with `has_override == False`, and then: report only
(dry run), apply (auto fix), or stop (scan).  Error prints from
`process_codebase` come first in the event list (the source interleaves
them with the findings; only the order within each group is
significant). -/
def mainRun (parse : Parser) (fs : FS) (auto_fix dry_run : Bool) :
    FS × List Event :=
  let pc := process_codebase parse fs
  let ams := pc.1
  let impls := pc.2.1
  let scanEvs := pc.2.2
    ++ ams.map (fun m => Event.foundAbstract m.class_name m.name m.module m.lineno)
    ++ impls.map (fun i =>
        Event.foundImpl i.class_name i.name i.source_file i.lineno i.has_override)
  let missing := impls.filter (fun i => !i.has_override)
  if missing.isEmpty then (fs, scanEvs)
  else if dry_run then
    (fs, scanEvs ++ missing.map (fun i => Event.wouldAdd i.class_name i.name))
  else if auto_fix then
    let r := applyLoop fs (fun _ => 0) missing
    (r.1, scanEvs ++ r.2.1)
  else (fs, scanEvs)

/-- The `__main__` entry point (lines 251-255): the command line only
supplies the directory; `main` is always invoked with
`auto_fix=True` (and `dry_run` left at its default `False`). -/
def scriptRun (parse : Parser) (fs : FS) : FS × List Event :=
  mainRun parse fs true false

/-- Number of successful insertions into file `f` among the traces
`trs` (used to state the offset bookkeeping of the apply loop). -/
def countLanded (trs : List EditTrace) (f : String) : Nat :=
  (trs.filter (fun t => t.file == f && t.landed.isSome)).length

/-- The invariant claimed for every `OverrideMethod` record: its name is
a known abstract method name and its owning class (when any) is not an
abstract-declaring class. -/
def implInv (ams : List AbstractMethod) (r : OverrideMethod) : Prop :=
  (abstractNames ams).contains r.name = true ∧
    ∀ c, r.class_name = some c → (abstractClasses ams).contains c = false

/-- The traversal-context invariant: the current class, when set, is not
an abstract-declaring class. -/
def clsOk (ams : List AbstractMethod) (cls : Option String) : Prop :=
  ∀ c, cls = some c → (abstractClasses ams).contains c = false

/- Concrete scenario: `a.py` declares `Base.run` abstract, `b.py`
implements it in `Derived` without the marker. -/

/-- Lines of `a.py`. -/
def linesA : List String :=
  ["from abc import abstractmethod\n", "class Base:\n",
   "    @abstractmethod\n", "    def run(self):\n", "        pass\n"]

/-- Tree of `a.py` (the import is an `otherStmt`; the `def` is at
line 4). -/
def treeA : List Stmt :=
  [.otherStmt [],
   .classDef "Base" [] [.functionDef "run" [.nameId "abstractmethod"] 4 []]]

/-- Lines of `b.py`. -/
def linesB : List String :=
  ["class Derived(Base):\n", "    def run(self):\n", "        pass\n"]

/-- Tree of `b.py`. -/
def treeB : List Stmt :=
  [.classDef "Derived" [.nameId "Base"] [.functionDef "run" [] 2 []]]

/-- Concrete parser table for the two-file scenario. -/
def parseEx : Parser := fun ls =>
  if ls = linesA then some treeA
  else if ls = linesB then some treeB
  else none

/-- The two-file scenario's file set. -/
def fsEx : FS := [("a.py", linesA), ("b.py", linesB)]

/-- The abstract-method record set of the two-file scenario, as the
first pass produces it. -/
def amsEx : List AbstractMethod := [⟨"run", "a.py", "Base", 4⟩]

/-- A ten-line file without any `@`, for exercising the apply loop's
offset bookkeeping. -/
def linesTen : List String :=
  ["l1\n", "l2\n", "l3\n", "l4\n", "l5\n", "l6\n", "l7\n", "l8\n", "l9\n", "l10\n"]

/-- A missing-override record for file `f.py` at a given line. -/
def missingAt (n : Int) : OverrideMethod :=
  ⟨"m", some "f.py", some "C", n, false, "f.py"⟩

/-- The offset-correctness example of the spec: three edits at original
lines 3, 3 and 7 of the same file. -/
def editsEx : List OverrideMethod := [missingAt 3, missingAt 3, missingAt 7]

/-- The apply loop run on the offset-correctness example, starting from
all offsets 0 as `main` does. -/
def runEx : FS × List Event × List EditTrace :=
  applyLoop [("f.py", linesTen)] (fun _ => 0) editsEx

/-- A method whose only attached decorator line is a property marker. -/
def propLines : List String :=
  ["class C:\n", "    @property\n", "    def foo(self):\n", "        return 1\n"]

/-- A method whose only attached decorator line is an ordinary
decorator. -/
def decoLines : List String :=
  ["class C:\n", "    @mydeco\n", "    def foo(self):\n", "        return 1\n"]

/-- Error-handling scenario: `f.py` holds two methods to patch, `g.py`
one. -/
def fsErr : FS :=
  [("f.py",
    ["class D(Base):\n", "    def a(self):\n", "        pass\n",
     "    def b(self):\n", "        pass\n"]),
   ("g.py",
    ["class E(Base):\n", "    def c(self):\n", "        pass\n"])]

/-- Error-handling scenario's pending implementations: the first edit of
`f.py` carries a stale line number (100) far out of range, the second
edit of `f.py` and the edit of `g.py` are valid. -/
def missingErr : List OverrideMethod :=
  [⟨"a", some "f.py", some "D", 100, false, "f.py"⟩,
   ⟨"b", some "f.py", some "D", 4, false, "f.py"⟩,
   ⟨"c", some "g.py", some "E", 2, false, "g.py"⟩]

/-- The apply loop run on the error-handling scenario. -/
def runErr : FS × List Event × List EditTrace :=
  applyLoop fsErr (fun _ => 0) missingErr

/-- A class defining the same matching method name twice. -/
def dupTree : Stmt :=
  .classDef "Derived" [.nameId "Base"]
    [.functionDef "run" [] 2 [], .functionDef "run" [] 4 []]

/-- Lines of a file whose module level holds, after a normal abstract
class, a stray `@abstractmethod` function outside any class. -/
def strayLines : List String :=
  ["from abc import abstractmethod\n", "class Base:\n",
   "    @abstractmethod\n", "    def run(self):\n", "        pass\n",
   "@abstractmethod\n", "def helper():\n", "    pass\n"]

/-- Tree of `strayLines`: the module-level `helper` carries the
`abstractmethod` marker while no class is current. -/
def strayTree : List Stmt :=
  [.otherStmt [],
   .classDef "Base" [] [.functionDef "run" [.nameId "abstractmethod"] 4 []],
   .functionDef "helper" [.nameId "abstractmethod"] 7 []]

/-- Parser table for the stray-method scenario, extending `parseEx`. -/
def parseStray : Parser := fun ls =>
  if ls = strayLines then some strayTree else parseEx ls

/-- Abstract-method set used for the qualified-marker scenario: `m`
declared abstract in class `C0`. -/
def amsQual : List AbstractMethod := [⟨"m", "a.py", "C0", 1⟩]

/-- A class whose method is decorated only with the attribute-form
abstract marker `abc.abstractmethod`. -/
def qualAbsTree : Stmt :=
  .classDef "C" [] [.functionDef "m" [.attr "abc" "abstractmethod"] 2 []]

/-- A class whose method is decorated only with the attribute-form
override marker `typing.override`. -/
def qualOvrTree : Stmt :=
  .classDef "D" [] [.functionDef "m" [.attr "typing" "override"] 2 []]

/-! ### Helper lemmas -/

/-- One step of the first pass, spelled out. -/
theorem passAbstract_cons (parse : Parser) (p : String) (ls : List String) (rest : FS) :
    passAbstract parse ((p, ls) :: rest) =
      (match parse ls with
       | none =>
           ((passAbstract parse rest).1,
            .errorProcessing p :: (passAbstract parse rest).2)
       | some tree =>
           match avBody (some p) none tree with
           | none =>
               ((passAbstract parse rest).1,
                .errorProcessing p :: (passAbstract parse rest).2)
           | some ams =>
               (ams ++ (passAbstract parse rest).1, (passAbstract parse rest).2)) := rfl

/-- One step of the second pass, spelled out. -/
theorem passImpl_cons (parse : Parser) (ams : List AbstractMethod) (p : String)
    (ls : List String) (rest : FS) :
    passImpl parse ams ((p, ls) :: rest) =
      (match parse ls with
       | none =>
           ((passImpl parse ams rest).1,
            .errorProcessing p :: (passImpl parse ams rest).2)
       | some tree =>
           match ivBody ams p (some p) none tree with
           | none =>
               ((passImpl parse ams rest).1,
                .errorProcessing p :: (passImpl parse ams rest).2)
           | some pair =>
               (pair.1 ++ (passImpl parse ams rest).1, (passImpl parse ams rest).2)) := rfl

/-- The first pass distributes over concatenation of the file list. -/
theorem passAbstract_append (parse : Parser) (xs ys : FS) :
    passAbstract parse (xs ++ ys) =
      ((passAbstract parse xs).1 ++ (passAbstract parse ys).1,
       (passAbstract parse xs).2 ++ (passAbstract parse ys).2) := by
  induction xs with
  | nil =>
      rw [List.nil_append, show passAbstract parse ([] : FS) = ([], []) from rfl]
      simp
  | cons head rest ih =>
      obtain ⟨p, ls⟩ := head
      rw [List.cons_append, passAbstract_cons, passAbstract_cons, ih]
      cases hp : parse ls with
      | none => simp
      | some tree =>
          cases ha : avBody (some p) none tree with
          | none => simp [ha]
          | some ams => simp [ha]

/-- The second pass distributes over concatenation of the file list. -/
theorem passImpl_append (parse : Parser) (ams : List AbstractMethod) (xs ys : FS) :
    passImpl parse ams (xs ++ ys) =
      ((passImpl parse ams xs).1 ++ (passImpl parse ams ys).1,
       (passImpl parse ams xs).2 ++ (passImpl parse ams ys).2) := by
  induction xs with
  | nil =>
      rw [List.nil_append, show passImpl parse ams ([] : FS) = ([], []) from rfl]
      simp
  | cons head rest ih =>
      obtain ⟨p, ls⟩ := head
      rw [List.cons_append, passImpl_cons, passImpl_cons, ih]
      cases hp : parse ls with
      | none => simp
      | some tree =>
          cases hv : ivBody ams p (some p) none tree with
          | none => simp [hv]
          | some pair => simp [hv]

/-- Records produced by `visit_FunctionDef` of `ImplementationFinder`
satisfy the name/owning-class invariant. -/
theorem ivSync_inv (ams : List AbstractMethod) (file : String)
    (mod cls : Option String) (name : String) (decos : List Deco) (lineno : Int)
    (rs : List OverrideMethod)
    (h : ivSync ams file mod cls name decos lineno = some rs)
    (hc : clsOk ams cls) : ∀ r ∈ rs, implInv ams r := by
  unfold ivSync at h
  split at h
  · split at h
    · cases h
      intro r hr
      cases hr
    · split at h
      · cases h
        intro r hr
        rw [List.mem_singleton] at hr
        subst hr
        exact ⟨by assumption, fun c hcc => hc c hcc⟩
      · cases h
  · cases h
    intro r hr
    cases hr

/-- Records produced by `visit_AsyncFunctionDef` of
`ImplementationFinder` satisfy the name/owning-class invariant. -/
theorem ivAsync_inv (ams : List AbstractMethod) (file : String)
    (mod cls : Option String) (name : String) (decos : List Deco) (lineno : Int)
    (rs : List OverrideMethod)
    (h : ivAsync ams file mod cls name decos lineno = some rs)
    (hc : clsOk ams cls) : ∀ r ∈ rs, implInv ams r := by
  unfold ivAsync at h
  split at h
  · split at h
    · cases h
      intro r hr
      cases hr
    · cases h
      intro r hr
      rw [List.mem_singleton] at hr
      subst hr
      exact ⟨by assumption, fun c hcc => hc c hcc⟩
  · cases h
    intro r hr
    cases hr

mutual

/-- Traversal invariant of `ImplementationFinder`, statement case: when
the current class is allowed, every record produced satisfies
`implInv`. -/
theorem ivStmt_inv (ams : List AbstractMethod) (file : String) (mod : Option String) :
    ∀ (cls : Option String) (s : Stmt)
      (res : List OverrideMethod × List (String × List String)),
      ivStmt ams file mod cls s = some res → clsOk ams cls →
      ∀ r ∈ res.1, implInv ams r
  | cls, .classDef name bases body, res, h, _ => by
      unfold ivStmt at h
      split at h
      · cases h
        intro r hr
        cases hr
      · rename_i hcls
        cases hbody : ivBody ams file mod (some name) body with
        | none => rw [hbody] at h; cases h
        | some pr =>
            rw [hbody] at h
            simp only [Option.bind_eq_bind, Option.some_bind] at h
            cases h
            intro r hr
            exact ivBody_inv ams file mod (some name) body pr hbody
              (fun c hcc => by cases hcc; simpa using hcls) r hr
  | cls, .functionDef name decos lineno body, res, h, hc => by
      unfold ivStmt at h
      cases hs : ivSync ams file mod cls name decos lineno with
      | none => rw [hs] at h; cases h
      | some rs =>
          rw [hs] at h
          simp only [Option.bind_eq_bind, Option.some_bind] at h
          cases h
          intro r hr
          exact ivSync_inv ams file mod cls name decos lineno rs hs hc r hr
  | cls, .asyncFunctionDef name decos lineno body, res, h, hc => by
      unfold ivStmt at h
      cases hs : ivAsync ams file mod cls name decos lineno with
      | none => rw [hs] at h; cases h
      | some rs =>
          rw [hs] at h
          simp only [Option.bind_eq_bind, Option.some_bind] at h
          cases h
          intro r hr
          exact ivAsync_inv ams file mod cls name decos lineno rs hs hc r hr
  | cls, .otherStmt body, res, h, hc => by
      unfold ivStmt at h
      intro r hr
      exact ivBody_inv ams file mod cls body res h hc r hr

/-- Traversal invariant of `ImplementationFinder`, sibling-list case. -/
theorem ivBody_inv (ams : List AbstractMethod) (file : String) (mod : Option String) :
    ∀ (cls : Option String) (l : List Stmt)
      (res : List OverrideMethod × List (String × List String)),
      ivBody ams file mod cls l = some res → clsOk ams cls →
      ∀ r ∈ res.1, implInv ams r
  | cls, [], res, h, _ => by
      unfold ivBody at h
      cases h
      intro r hr
      cases hr
  | cls, s :: rest, res, h, hc => by
      unfold ivBody at h
      cases h1 : ivStmt ams file mod cls s with
      | none => rw [h1] at h; cases h
      | some p1 =>
          rw [h1] at h
          cases h2 : ivBody ams file mod cls rest with
          | none =>
              rw [h2] at h
              simp only [Option.bind_eq_bind, Option.some_bind] at h
              cases h
          | some p2 =>
              rw [h2] at h
              simp only [Option.bind_eq_bind, Option.some_bind] at h
              cases h
              intro r hr
              rcases List.mem_append.mp hr with hr1 | hr2
              · exact ivStmt_inv ams file mod cls s p1 h1 hc r hr1
              · exact ivBody_inv ams file mod cls rest p2 h2 hc r hr2

end

/-- Every record of the second pass satisfies the invariant. -/
theorem passImpl_inv (parse : Parser) (ams : List AbstractMethod) :
    ∀ (fs : FS) (r : OverrideMethod),
      r ∈ (passImpl parse ams fs).1 → implInv ams r := by
  intro fs
  induction fs with
  | nil => intro r hr; simp [passImpl] at hr
  | cons head rest ih =>
      obtain ⟨p, ls⟩ := head
      intro r hr
      rw [passImpl_cons] at hr
      cases hp : parse ls with
      | none =>
          rw [hp] at hr
          exact ih r hr
      | some tree =>
          rw [hp] at hr
          have hr2 : r ∈ (match ivBody ams p (some p) none tree with
            | none =>
                ((passImpl parse ams rest).1,
                 Event.errorProcessing p :: (passImpl parse ams rest).2)
            | some pair =>
                (pair.1 ++ (passImpl parse ams rest).1,
                 (passImpl parse ams rest).2)).1 := hr
          cases hv : ivBody ams p (some p) none tree with
          | none =>
              rw [hv] at hr2
              exact ih r hr2
          | some pair =>
              rw [hv] at hr2
              rcases List.mem_append.mp hr2 with h1 | h2
              · exact ivBody_inv ams p (some p) none tree pair hv
                  (fun c hcc => by cases hcc) r h1
              · exact ih r h2

/-- `ImplementationFinder`'s traversal distributes over concatenation
of sibling lists: the later nodes' records are appended regardless of
what the earlier nodes produced. -/
theorem ivBody_append (ams : List AbstractMethod) (file : String)
    (mod cls : Option String) :
    ∀ (xs ys : List Stmt) (px py : List OverrideMethod × List (String × List String)),
      ivBody ams file mod cls xs = some px → ivBody ams file mod cls ys = some py →
      ivBody ams file mod cls (xs ++ ys) = some (px.1 ++ py.1, px.2 ++ py.2)
  | [], ys, px, py, hx, hy => by
      unfold ivBody at hx
      cases hx
      simpa using hy
  | s :: rest, ys, px, py, hx, hy => by
      unfold ivBody at hx
      cases h1 : ivStmt ams file mod cls s with
      | none => rw [h1] at hx; cases hx
      | some p1 =>
          rw [h1] at hx
          cases h2 : ivBody ams file mod cls rest with
          | none =>
              rw [h2] at hx
              simp only [Option.bind_eq_bind, Option.some_bind] at hx
              cases hx
          | some p2 =>
              rw [h2] at hx
              simp only [Option.bind_eq_bind, Option.some_bind] at hx
              cases hx
              have hr := ivBody_append ams file mod cls rest ys p2 py h2 hy
              rw [List.cons_append]
              unfold ivBody
              rw [h1, hr]
              simp [List.append_assoc]

/-- One step of the apply loop, spelled out. -/
theorem applyLoop_cons (fs : FS) (offs : String → Int) (impl : OverrideMethod)
    (rest : List OverrideMethod) :
    applyLoop fs offs (impl :: rest) =
      (match fsRead fs impl.source_file with
       | none =>
           ((applyLoop fs offs rest).1,
            .errorAdding impl.class_name impl.name :: (applyLoop fs offs rest).2.1,
            ⟨impl.source_file, impl.lineno + offs impl.source_file, none⟩
              :: (applyLoop fs offs rest).2.2)
       | some lines =>
           match add_override_decorator lines (impl.lineno + offs impl.source_file) with
           | none =>
               ((applyLoop fs offs rest).1,
                .errorAdding impl.class_name impl.name :: (applyLoop fs offs rest).2.1,
                ⟨impl.source_file, impl.lineno + offs impl.source_file, none⟩
                  :: (applyLoop fs offs rest).2.2)
           | some pair =>
               ((applyLoop (fsWrite fs impl.source_file pair.1)
                   (fun f => if f = impl.source_file then offs f + 1 else offs f) rest).1,
                .addedOverride impl.class_name impl.name ::
                  (applyLoop (fsWrite fs impl.source_file pair.1)
                    (fun f => if f = impl.source_file then offs f + 1 else offs f) rest).2.1,
                ⟨impl.source_file, impl.lineno + offs impl.source_file, some pair.2⟩
                  :: (applyLoop (fsWrite fs impl.source_file pair.1)
                      (fun f => if f = impl.source_file then offs f + 1 else offs f) rest).2.2)) := rfl

/-- Unfolding of the successful-insertion counter. -/
theorem countLanded_cons (t : EditTrace) (l : List EditTrace) (f : String) :
    countLanded (t :: l) f =
      (if t.file == f && t.landed.isSome then 1 else 0) + countLanded l f := by
  unfold countLanded
  rw [List.filter_cons]
  split <;> simp_all [Nat.add_comm]

/-- Offset bookkeeping of the apply loop: the line number passed to
`add_override_decorator` for the `i`-th pending edit is its stored
`lineno` plus the starting offset of its file plus the number of edits
already successfully inserted into that same file. -/
theorem applyLoop_passed :
    ∀ (missing : List OverrideMethod) (fs : FS) (offs : String → Int) (i : Nat),
    (((applyLoop fs offs missing).2.2.get? i).map EditTrace.passed) =
      ((missing.get? i).map (fun m =>
        m.lineno + offs m.source_file +
          (countLanded ((applyLoop fs offs missing).2.2.take i) m.source_file : Int)))
  | [], fs, offs, i => by simp [applyLoop]
  | impl :: rest, fs, offs, i => by
      cases hread : fsRead fs impl.source_file with
      | none =>
          have hstep : applyLoop fs offs (impl :: rest) =
              ((applyLoop fs offs rest).1,
               .errorAdding impl.class_name impl.name :: (applyLoop fs offs rest).2.1,
               ⟨impl.source_file, impl.lineno + offs impl.source_file, none⟩
                 :: (applyLoop fs offs rest).2.2) := by
            rw [applyLoop_cons, hread]
          rw [hstep]
          cases i with
          | zero => simp [countLanded]
          | succ i =>
              have ih := applyLoop_passed rest fs offs i
              simp only [List.get?_cons_succ, List.take_succ_cons]
              rw [ih]
              cases hm : rest.get? i with
              | none => simp
              | some m =>
                  simp only [Option.map_some']
                  congr 1
                  rw [countLanded_cons]
                  simp
      | some lines =>
          cases hadd : add_override_decorator lines (impl.lineno + offs impl.source_file) with
          | none =>
              have hstep : applyLoop fs offs (impl :: rest) =
                  ((applyLoop fs offs rest).1,
                   .errorAdding impl.class_name impl.name :: (applyLoop fs offs rest).2.1,
                   ⟨impl.source_file, impl.lineno + offs impl.source_file, none⟩
                     :: (applyLoop fs offs rest).2.2) := by
                rw [applyLoop_cons, hread]
                have hred : (match add_override_decorator lines (impl.lineno + offs impl.source_file) with
                  | none =>
                      ((applyLoop fs offs rest).1,
                       Event.errorAdding impl.class_name impl.name :: (applyLoop fs offs rest).2.1,
                       (⟨impl.source_file, impl.lineno + offs impl.source_file, none⟩ : EditTrace)
                         :: (applyLoop fs offs rest).2.2)
                  | some pair =>
                      ((applyLoop (fsWrite fs impl.source_file pair.1)
                          (fun f => if f = impl.source_file then offs f + 1 else offs f) rest).1,
                       Event.addedOverride impl.class_name impl.name ::
                         (applyLoop (fsWrite fs impl.source_file pair.1)
                           (fun f => if f = impl.source_file then offs f + 1 else offs f) rest).2.1,
                       (⟨impl.source_file, impl.lineno + offs impl.source_file, some pair.2⟩ : EditTrace)
                         :: (applyLoop (fsWrite fs impl.source_file pair.1)
                             (fun f => if f = impl.source_file then offs f + 1 else offs f) rest).2.2)) =
                  ((applyLoop fs offs rest).1,
                   Event.errorAdding impl.class_name impl.name :: (applyLoop fs offs rest).2.1,
                   (⟨impl.source_file, impl.lineno + offs impl.source_file, none⟩ : EditTrace)
                     :: (applyLoop fs offs rest).2.2) := by rw [hadd]
                exact hred
              rw [hstep]
              cases i with
              | zero => simp [countLanded]
              | succ i =>
                  have ih := applyLoop_passed rest fs offs i
                  simp only [List.get?_cons_succ, List.take_succ_cons]
                  rw [ih]
                  cases hm : rest.get? i with
                  | none => simp
                  | some m =>
                      simp only [Option.map_some']
                      congr 1
                      rw [countLanded_cons]
                      simp
          | some pair =>
              have hstep : applyLoop fs offs (impl :: rest) =
                  ((applyLoop (fsWrite fs impl.source_file pair.1)
                      (fun f => if f = impl.source_file then offs f + 1 else offs f) rest).1,
                   .addedOverride impl.class_name impl.name ::
                     (applyLoop (fsWrite fs impl.source_file pair.1)
                       (fun f => if f = impl.source_file then offs f + 1 else offs f) rest).2.1,
                   ⟨impl.source_file, impl.lineno + offs impl.source_file, some pair.2⟩
                     :: (applyLoop (fsWrite fs impl.source_file pair.1)
                         (fun f => if f = impl.source_file then offs f + 1 else offs f) rest).2.2) := by
                rw [applyLoop_cons, hread]
                have hred : (match add_override_decorator lines (impl.lineno + offs impl.source_file) with
                  | none =>
                      ((applyLoop fs offs rest).1,
                       Event.errorAdding impl.class_name impl.name :: (applyLoop fs offs rest).2.1,
                       (⟨impl.source_file, impl.lineno + offs impl.source_file, none⟩ : EditTrace)
                         :: (applyLoop fs offs rest).2.2)
                  | some pair =>
                      ((applyLoop (fsWrite fs impl.source_file pair.1)
                          (fun f => if f = impl.source_file then offs f + 1 else offs f) rest).1,
                       Event.addedOverride impl.class_name impl.name ::
                         (applyLoop (fsWrite fs impl.source_file pair.1)
                           (fun f => if f = impl.source_file then offs f + 1 else offs f) rest).2.1,
                       (⟨impl.source_file, impl.lineno + offs impl.source_file, some pair.2⟩ : EditTrace)
                         :: (applyLoop (fsWrite fs impl.source_file pair.1)
                             (fun f => if f = impl.source_file then offs f + 1 else offs f) rest).2.2)) =
                  ((applyLoop (fsWrite fs impl.source_file pair.1)
                      (fun f => if f = impl.source_file then offs f + 1 else offs f) rest).1,
                   Event.addedOverride impl.class_name impl.name ::
                     (applyLoop (fsWrite fs impl.source_file pair.1)
                       (fun f => if f = impl.source_file then offs f + 1 else offs f) rest).2.1,
                   (⟨impl.source_file, impl.lineno + offs impl.source_file, some pair.2⟩ : EditTrace)
                     :: (applyLoop (fsWrite fs impl.source_file pair.1)
                         (fun f => if f = impl.source_file then offs f + 1 else offs f) rest).2.2) := by
                  rw [hadd]
                exact hred
              rw [hstep]
              cases i with
              | zero => simp [countLanded]
              | succ i =>
                  have ih := applyLoop_passed rest (fsWrite fs impl.source_file pair.1)
                    (fun f => if f = impl.source_file then offs f + 1 else offs f) i
                  simp only [List.get?_cons_succ, List.take_succ_cons]
                  rw [ih]
                  cases hm : rest.get? i with
                  | none => simp
                  | some m =>
                      simp only [Option.map_some']
                      congr 1
                      rw [countLanded_cons]
                      by_cases hmf : m.source_file = impl.source_file
                      · simp [hmf, beq_iff_eq]
                        ring
                      · have hne : (impl.source_file == m.source_file) = false := by
                          simp [beq_iff_eq]
                          exact fun hcon => hmf hcon.symm
                        simp [hmf, hne]

/-- `main` invoked with both flags left `False` performs no mutation. -/
theorem mainRun_scan_pure (parse : Parser) (fs : FS) :
    (mainRun parse fs false false).1 = fs := by
  unfold mainRun
  split <;> simp_all

/-! ### Claim theorems -/

/-- Claim C1, counterexample.  For edits at original lines 3, 3 and 7
of a ten-line file with no decorator lines, the 1-based positions at
which the new lines actually land are 3, 3 and 9 — not 3, 4 and 9 as
claimed: the second edit's backward decorator walk climbs above the
marker the first edit just inserted, so its real insertion index is not
its original line index plus the accumulated offset. -/
theorem c1_counterexample :
    runEx.2.2.map (fun t => t.landed) = [some 3, some 3, some 9] ∧
      ¬ runEx.2.2.map (fun t => t.landed) = [some 3, some 4, some 9] := by
  decide

/-- Claim C1, amended.  Edits are applied with a per-file running
offset initialized to 0 and incremented by 1 after each successful
insertion, and the line number passed to the patcher for each edit is
its original line index plus that accumulated offset — for the edits at
original lines 3, 3 and 7 the passed line numbers are 3, 4 and 9.  But
the patcher's backward decorator walk can move the actual insertion
upward past previously inserted markers: the actual 1-based insertion
positions for this example are 3, 3 and 9. -/
theorem c1_offset_theorem :
    (∀ (missing : List OverrideMethod) (fs : FS) (offs : String → Int) (i : Nat),
      (((applyLoop fs offs missing).2.2.get? i).map EditTrace.passed) =
        ((missing.get? i).map (fun m =>
          m.lineno + offs m.source_file +
            (countLanded ((applyLoop fs offs missing).2.2.take i) m.source_file : Int)))) ∧
      runEx.2.2.map (fun t => t.passed) = [3, 4, 9] ∧
      runEx.2.2.map (fun t => t.landed) = [some 3, some 3, some 9] :=
  ⟨fun missing fs offs i => applyLoop_passed missing fs offs i, by decide, by decide⟩

/-- Claim C2, counterexample.  A run started through the `__main__`
entry point — which is the only way to start a run, and which offers no
mode flags — mutates the file set of the concrete scenario, so the
default run is not a mutation-free scan. -/
theorem c2_counterexample : (scriptRun parseEx fsEx).1 ≠ fsEx := by decide

/-- Claim C2, amended.  Calling `main` with neither `auto_fix` nor
`dry_run` set performs a scan and never mutates any file; but the
command-line entry point always invokes `main` with `auto_fix=True`, so
a run started from the command line without selecting a mode is an
apply run, and on the concrete scenario it does mutate the file set. -/
theorem c2_default_mode_theorem :
    (∀ (parse : Parser) (fs : FS), (mainRun parse fs false false).1 = fs) ∧
      (∀ (parse : Parser) (fs : FS), scriptRun parse fs = mainRun parse fs true false) ∧
      (scriptRun parseEx fsEx).1 ≠ fsEx :=
  ⟨fun parse fs => mainRun_scan_pure parse fs, fun _ _ => rfl, by decide⟩

/-- Claim C3, counterexample.  For a method whose only attached
decorator line is `@property`, the inserted marker lands at 1-based
position 3, directly below the property line (the walk stops at any
line containing the text `@property`) — not above the property block at
position 2 as claimed. -/
theorem c3_counterexample :
    add_override_decorator propLines 3 =
        some (["class C:\n", "    @property\n", "    @override\n",
               "    def foo(self):\n", "        return 1\n"], 3) ∧
      ¬ add_override_decorator propLines 3 =
        some (["class C:\n", "    @override\n", "    @property\n",
               "    def foo(self):\n", "        return 1\n"], 2) := by
  decide

/-- Claim C3, amended.  The inserted marker is placed immediately above
the method definition line and above attached ordinary decorator lines
(the walk climbs over any line containing an `@`), but the walk stops
at a line containing `@property`: when a property-accessor marker is
present the new marker is inserted immediately below that line, not
above it. -/
theorem c3_insertion_point_theorem :
    add_override_decorator decoLines 3 =
        some (["class C:\n", "    @override\n", "    @mydeco\n",
               "    def foo(self):\n", "        return 1\n"], 2) ∧
      add_override_decorator propLines 3 =
        some (["class C:\n", "    @property\n", "    @override\n",
               "    def foo(self):\n", "        return 1\n"], 3) := by
  decide

/-- Claim C4, counterexample.  An asynchronous method definition
carrying the bare `staticmethod` marker, with a matching name, in a
non-abstract class, is recorded as an Implementation: the asynchronous
visitor only filters on `abstractmethod`. -/
theorem c4_counterexample :
    ivStmt amsEx "m.py" (some "m.py") none
        (.classDef "Impl" [] [.asyncFunctionDef "run" [.nameId "staticmethod"] 2 []]) =
      some ([⟨"run", some "m.py", some "Impl", 2, false, "m.py"⟩], [("Impl", [])]) := by
  decide

/-- Claim C4, amended.  A synchronous method carrying a bare
`abstractmethod` or `staticmethod` marker is never recorded as an
Implementation, and an asynchronous method carrying a bare
`abstractmethod` marker is never recorded; but for asynchronous methods
the `staticmethod` marker does not exclude (and no visitor checks
`classmethod`). -/
theorem c4_exclusion_theorem :
    (∀ (ams : List AbstractMethod) (file : String) (mod cls : Option String)
      (name : String) (decos : List Deco) (lineno : Int),
      decos.any (fun d => decoIs d "abstractmethod" || decoIs d "staticmethod") = true →
      ivSync ams file mod cls name decos lineno = some []) ∧
      (∀ (ams : List AbstractMethod) (file : String) (mod cls : Option String)
        (name : String) (decos : List Deco) (lineno : Int),
        decos.any (fun d => decoIs d "abstractmethod") = true →
        ivAsync ams file mod cls name decos lineno = some []) := by
  constructor
  · intro ams file mod cls name decos lineno h
    simp [ivSync, h]
  · intro ams file mod cls name decos lineno h
    simp [ivAsync, h]

/-- Witness for C4's amended theorem at concrete inputs. -/
theorem c4_exclusion_witness :
    ([Deco.nameId "staticmethod"].any
        (fun d => decoIs d "abstractmethod" || decoIs d "staticmethod") = true) ∧
      ivSync amsEx "m.py" (some "m.py") (some "Impl") "run"
        [Deco.nameId "staticmethod"] 2 = some [] ∧
      ([Deco.nameId "abstractmethod"].any (fun d => decoIs d "abstractmethod") = true) ∧
      ivAsync amsEx "m.py" (some "m.py") (some "Impl") "run"
        [Deco.nameId "abstractmethod"] 2 = some [] :=
  ⟨by decide,
   c4_exclusion_theorem.1 amsEx "m.py" (some "m.py") (some "Impl") "run"
     [Deco.nameId "staticmethod"] 2 (by decide),
   by decide,
   c4_exclusion_theorem.2 amsEx "m.py" (some "m.py") (some "Impl") "run"
     [Deco.nameId "abstractmethod"] 2 (by decide)⟩

/-- Claim C5, counterexample.  In the error scenario the first edit of
`f.py` is out of range and reported as failed, but the remaining edit
of the same file is not aborted: it is applied and reported as a
success, and the final content of `f.py` carries that insertion. -/
theorem c5_counterexample :
    runErr.2.1 =
        [.errorAdding (some "D") "a", .addedOverride (some "D") "b",
         .addedOverride (some "E") "c"] ∧
      fsRead runErr.1 "f.py" =
        some ["class D(Base):\n", "    def a(self):\n", "        pass\n",
              "    @override\n", "    def b(self):\n", "        pass\n"] := by
  decide

/-- Claim C5, amended.  An out-of-range edit raises before any write,
is caught, and is reported per implementation; nothing is persisted for
it and the per-file offset is not incremented; but the same file's
remaining edits are not aborted — they are attempted with the
unincremented offset (the second `f.py` edit is passed line 4 + 0) and
may succeed — and edits belonging to other files are still applied. -/
theorem c5_error_handling_theorem :
    runErr =
      ([("f.py",
         ["class D(Base):\n", "    def a(self):\n", "        pass\n",
          "    @override\n", "    def b(self):\n", "        pass\n"]),
        ("g.py",
         ["class E(Base):\n", "    @override\n", "    def c(self):\n", "        pass\n"])],
       [.errorAdding (some "D") "a", .addedOverride (some "D") "b",
        .addedOverride (some "E") "c"],
       [⟨"f.py", 100, none⟩, ⟨"f.py", 4, some 4⟩, ⟨"g.py", 2, some 2⟩]) := by
  decide

/-- Claim C6: every Implementation record produced by a run has a
method name in the run's set of known abstract method names, and its
owning class, whenever one is recorded, is not in the
abstract-declaring-class set; in particular an abstract method is never
reported as its own implementation. -/
theorem c6_invariant_theorem (parse : Parser) (fs : FS) (r : OverrideMethod)
    (hr : r ∈ (process_codebase parse fs).2.1) :
    implInv (process_codebase parse fs).1 r := by
  have h1 : (process_codebase parse fs).2.1 =
      (passImpl parse (passAbstract parse fs).1 fs).1 := rfl
  have h2 : (process_codebase parse fs).1 = (passAbstract parse fs).1 := rfl
  rw [h1] at hr
  rw [h2]
  exact passImpl_inv parse (passAbstract parse fs).1 fs r hr

/-- Witness for C6 at the concrete two-file scenario. -/
theorem c6_invariant_witness :
    (⟨"run", some "b.py", some "Derived", 2, false, "b.py"⟩ : OverrideMethod) ∈
        (process_codebase parseEx fsEx).2.1 ∧
      implInv (process_codebase parseEx fsEx).1
        ⟨"run", some "b.py", some "Derived", 2, false, "b.py"⟩ :=
  ⟨by decide,
   c6_invariant_theorem parseEx fsEx
     ⟨"run", some "b.py", some "Derived", 2, false, "b.py"⟩ (by decide)⟩

/-- Claim C7, counterexample.  A class defining the same matching
method name twice yields two Implementation records for the same
(owning type, method name) pair: the later duplicate is recorded too,
and no note is emitted — there is no tie-break. -/
theorem c7_counterexample :
    ivStmt amsEx "b.py" (some "b.py") none dupTree =
      some ([⟨"run", some "b.py", some "Derived", 2, false, "b.py"⟩,
             ⟨"run", some "b.py", some "Derived", 4, false, "b.py"⟩],
            [("Derived", ["Base"])]) := by
  decide

/-- Claim C7, amended.  Each visit of a matching method appends a fresh
record regardless of what was already recorded: appending a duplicate
definition of an already-recorded method to a class body appends its
record after the earlier ones, with no deduplication and no note. -/
theorem c7_duplicate_theorem (ams : List AbstractMethod) (file : String)
    (mod : Option String) (c : String) (xs : List Stmt)
    (px : List OverrideMethod × List (String × List String))
    (name : String) (ln : Int)
    (hx : ivBody ams file mod (some c) xs = some px)
    (hn : (abstractNames ams).contains name = true)
    (hm : truthyS mod = true) (hc : c ≠ "") :
    ivBody ams file mod (some c) (xs ++ [.functionDef name [] ln []]) =
      some (px.1 ++ [⟨name, mod, some c, ln, false, file⟩], px.2) := by
  have hy : ivBody ams file mod (some c) [.functionDef name [] ln []] =
      some ([⟨name, mod, some c, ln, false, file⟩], []) := by
    have hmem : name ∈ abstractNames ams := by simpa using hn
    cases mod with
    | none => exact absurd hm (by simp [truthyS])
    | some s =>
        have hs : (s == "") = false := by simpa [truthyS] using hm
        simp [ivBody, ivStmt, ivSync, hmem, truthyS, hs, hc]
  have happ := ivBody_append ams file mod (some c) xs [.functionDef name [] ln []] px
    ([⟨name, mod, some c, ln, false, file⟩], []) hx hy
  simpa using happ

/-- Witness for C7's amended theorem: the duplicated `run` of the
concrete scenario. -/
theorem c7_duplicate_witness :
    ivBody amsEx "b.py" (some "b.py") (some "Derived")
        [.functionDef "run" [] 2 []] =
      some ([⟨"run", some "b.py", some "Derived", 2, false, "b.py"⟩], []) ∧
      ivBody amsEx "b.py" (some "b.py") (some "Derived")
          ([.functionDef "run" [] 2 []] ++ [.functionDef "run" [] 4 []]) =
        some ([⟨"run", some "b.py", some "Derived", 2, false, "b.py"⟩,
               ⟨"run", some "b.py", some "Derived", 4, false, "b.py"⟩], []) :=
  ⟨by decide,
   c7_duplicate_theorem amsEx "b.py" (some "b.py") "Derived"
     [.functionDef "run" [] 2 []]
     ([⟨"run", some "b.py", some "Derived", 2, false, "b.py"⟩], [])
     "run" 4 (by decide) (by decide) (by decide) (by decide)⟩

/-- Claim C8: the code, not the claim, is at fault.  A module-level
function carrying the bare `abstractmethod` marker is not ignored: the
visitor's assertion that a class is current fails, the exception is
caught per file, an error line is printed, and the file's other
records — here the legitimate `Base.run` declaration — are dropped with
it.  The same file without the stray function yields `Base.run`
normally. -/
theorem c8_assertion_theorem :
    avBody (some "x.py") none strayTree = none ∧
      process_codebase parseStray [("x.py", strayLines)] =
        ([], [], [.errorProcessing "x.py"]) ∧
      process_codebase parseStray [("a.py", linesA)] =
        ([⟨"run", "a.py", "Base", 4⟩], [], []) := by
  decide

/-- Claim C9: a file whose text fails to parse is excluded from both
passes, at least one error line naming it is printed, and all other
files produce exactly the records they would produce were the failing
file absent. -/
theorem c9_parse_failure_theorem (parse : Parser) (pre post : FS) (p : String)
    (lines : List String) (h : parse lines = none) :
    (process_codebase parse (pre ++ (p, lines) :: post)).1 =
        (process_codebase parse (pre ++ post)).1 ∧
      (process_codebase parse (pre ++ (p, lines) :: post)).2.1 =
        (process_codebase parse (pre ++ post)).2.1 ∧
      Event.errorProcessing p ∈ (process_codebase parse (pre ++ (p, lines) :: post)).2.2 := by
  have habs : passAbstract parse ((p, lines) :: post) =
      ((passAbstract parse post).1,
       .errorProcessing p :: (passAbstract parse post).2) := by
    rw [passAbstract_cons, h]
  have hamsfull : (passAbstract parse (pre ++ (p, lines) :: post)).1 =
      (passAbstract parse pre).1 ++ (passAbstract parse post).1 := by
    rw [passAbstract_append, habs]
  have hamsred : (passAbstract parse (pre ++ post)).1 =
      (passAbstract parse pre).1 ++ (passAbstract parse post).1 := by
    rw [passAbstract_append]
  have hams : (passAbstract parse (pre ++ (p, lines) :: post)).1 =
      (passAbstract parse (pre ++ post)).1 := hamsfull.trans hamsred.symm
  refine ⟨hams, ?_, ?_⟩
  · show (passImpl parse (passAbstract parse (pre ++ (p, lines) :: post)).1
        (pre ++ (p, lines) :: post)).1 =
      (passImpl parse (passAbstract parse (pre ++ post)).1 (pre ++ post)).1
    rw [hams]
    set ams := (passAbstract parse (pre ++ post)).1 with hA
    have himpl : passImpl parse ams ((p, lines) :: post) =
        ((passImpl parse ams post).1,
         .errorProcessing p :: (passImpl parse ams post).2) := by
      rw [passImpl_cons, h]
    rw [passImpl_append, passImpl_append, himpl]
  · show Event.errorProcessing p ∈
      (passAbstract parse (pre ++ (p, lines) :: post)).2 ++
        (passImpl parse (passAbstract parse (pre ++ (p, lines) :: post)).1
          (pre ++ (p, lines) :: post)).2
    have hev : (passAbstract parse (pre ++ (p, lines) :: post)).2 =
        (passAbstract parse pre).2 ++
          (.errorProcessing p :: (passAbstract parse post).2) := by
      rw [passAbstract_append, habs]
    rw [hev]
    simp

/-- Witness for C9: an unparseable file between the two good files of
the concrete scenario. -/
theorem c9_parse_failure_witness :
    parseStray ["garbage\n"] = none ∧
      ((process_codebase parseStray
          ([("a.py", linesA)] ++ ("bad.py", ["garbage\n"]) :: [("b.py", linesB)])).1 =
        (process_codebase parseStray ([("a.py", linesA)] ++ [("b.py", linesB)])).1 ∧
      (process_codebase parseStray
          ([("a.py", linesA)] ++ ("bad.py", ["garbage\n"]) :: [("b.py", linesB)])).2.1 =
        (process_codebase parseStray ([("a.py", linesA)] ++ [("b.py", linesB)])).2.1 ∧
      Event.errorProcessing "bad.py" ∈
        (process_codebase parseStray
          ([("a.py", linesA)] ++ ("bad.py", ["garbage\n"]) :: [("b.py", linesB)])).2.2) :=
  ⟨rfl,
   c9_parse_failure_theorem parseStray [("a.py", linesA)] [("b.py", linesB)]
     "bad.py" ["garbage\n"] rfl⟩

/-- Claim C10: both passes recognize a marker only as a bare-name
decorator whose identifier is exactly the marker name — an
attribute-form decorator is never recognized — so a method decorated
only with a qualified abstract marker yields no AbstractDeclaration,
and a method decorated only with a qualified override marker is
recorded with `has_override = false`. -/
theorem c10_marker_shape_theorem :
    (∀ (v a s : String), decoIs (.attr v a) s = false) ∧
      avStmt (some "p.py") none qualAbsTree = some [] ∧
      ivStmt amsQual "p.py" (some "p.py") none qualOvrTree =
        some ([⟨"m", some "p.py", some "D", 2, false, "p.py"⟩], [("D", [])]) :=
  ⟨fun _ _ _ => rfl, by decide, by decide⟩

end Overrider
